import Mathlib

/-!
# Verification of the labrador message-envelope cryptography subsystem

Shallow embedding of `src/util/prp.rs` (struct `PrpCrypto`) and
`src/wechat/mp/replies/articles.rs` (`Article`, `ArticlesReply`).

Conventions of the embedding:

* Rust byte sequences (`Vec<u8>`, `&[u8]`, the UTF-8 bytes of `&str`/`String`)
  are `List Nat`, with byte values kept below 256 by construction or by
  explicit hypothesis.
* Fallible Rust functions returning `LabradorResult<T>` become
  `Except LabraError T`.
* A Rust panic (out-of-bounds slice such as `&key[..16]` on a short key, or
  `&text[16..20]` on a short frame) is modelled by an outer `Option`: the
  value `none` means the function aborts instead of returning a result.
* The OpenSSL primitives (`openssl::symm`, RSA signing) and the helper crates
  (`base64`, `rustc_serialize` hex) are external to the repository; they are
  modelled by executable functions that are faithful to the documented
  contract the source relies on (stated in each doc comment), with the AES
  permutation itself idealized as a keyed byte-masking permutation.
* Internal randomness (the 16-byte random string of the message path) is
  passed as an explicit argument.
-/

/-- Error type of the repository. The file `errors.rs` is not among the
sources; the constructors are modelled from the error taxonomy of the spec
(section 7). The source identity check returns `LabraError::InvalidAppId`,
which the spec names `IdentityMismatch`; we use the spec name. -/
inductive LabraError where
  | encodingError
  | cipherError
  | identityMismatch
  | frameTruncated
  | textDecodeError
  | keyParseError
  | authenticationFailure
deriving DecidableEq, Repr

/-- Result alias of the repository (`LabradorResult<T>`). -/
abbrev LabradorResult (α : Type) := Except LabraError α

instance {α : Type} [DecidableEq α] : DecidableEq (LabradorResult α) := fun a b =>
  match a, b with
  | .error x, .error y =>
      if h : x = y then isTrue (by rw [h])
      else isFalse (by intro hc; cases hc; exact h rfl)
  | .ok x, .ok y =>
      if h : x = y then isTrue (by rw [h])
      else isFalse (by intro hc; cases hc; exact h rfl)
  | .error _, .ok _ => isFalse (by intro hc; exact Except.noConfusion hc)
  | .ok _, .error _ => isFalse (by intro hc; exact Except.noConfusion hc)

/-! ## Idealized keyed byte mask (models the AES layer of `openssl::symm`)

The AES block permutation is outside the repository.  We idealize the cipher
core as a length-preserving keyed permutation of byte lists: byte `i` is
XOR-ed with a keystream byte derived from the key, the IV and the position.
XOR makes the core an involution, which is all the source relies on
(`symm::decrypt` inverts `symm::encrypt` under the same key and IV). -/

/-- Keystream byte `i` derived from `key` and `iv`; always below 256. -/
def ks (key iv : List Nat) (i : Nat) : Nat :=
  (key.foldl (fun a b => (a * 31 + b) % 256) 7 ^^^
   iv.foldl (fun a b => (a * 37 + b) % 256) 11 ^^^ (i * 151 + 13)) % 256

/-- Mask the bytes of `data` with the keystream, starting at position `i`. -/
def maskFrom (key iv : List Nat) : Nat → List Nat → List Nat
  | _, [] => []
  | i, b :: rest => (b ^^^ ks key iv i) :: maskFrom key iv (i + 1) rest

/-- The idealized cipher core: XOR `data` with the `(key, iv)` keystream. -/
def mask (key iv data : List Nat) : List Nat := maskFrom key iv 0 data

theorem maskFrom_maskFrom (key iv : List Nat) :
    ∀ (i : Nat) (data : List Nat), maskFrom key iv i (maskFrom key iv i data) = data := by
  intro i data
  induction data generalizing i with
  | nil => rfl
  | cons b rest ih =>
      simp only [maskFrom, Nat.xor_cancel_right, ih]

/-- The idealized cipher core is an involution. -/
theorem mask_mask (key iv data : List Nat) : mask key iv (mask key iv data) = data :=
  maskFrom_maskFrom key iv 0 data

theorem maskFrom_length (key iv : List Nat) :
    ∀ (i : Nat) (data : List Nat), (maskFrom key iv i data).length = data.length := by
  intro i data
  induction data generalizing i with
  | nil => rfl
  | cons b rest ih => simp [maskFrom, ih]

theorem mask_length (key iv data : List Nat) : (mask key iv data).length = data.length :=
  maskFrom_length key iv 0 data

theorem ks_lt (key iv : List Nat) (i : Nat) : ks key iv i < 256 :=
  Nat.mod_lt _ (by omega)

theorem maskFrom_lt (key iv : List Nat) :
    ∀ (i : Nat) (data : List Nat), (∀ b ∈ data, b < 256) →
      ∀ b ∈ maskFrom key iv i data, b < 256 := by
  intro i data
  induction data generalizing i with
  | nil => intro _ b hb; cases hb
  | cons x rest ih =>
      intro h b hb
      rcases List.mem_cons.mp hb with hb | hb
      · subst hb
        have hx : x < 2 ^ 8 := h x (by simp)
        have hk : ks key iv i < 2 ^ 8 := ks_lt key iv i
        exact Nat.xor_lt_two_pow hx hk
      · exact ih (i + 1) (fun c hc => h c (by simp [hc])) b hb

theorem mask_lt (key iv data : List Nat) (h : ∀ b ∈ data, b < 256) :
    ∀ b ∈ mask key iv data, b < 256 :=
  maskFrom_lt key iv 0 data h

/-! ## PKCS#7 padding (models the padding layer of `openssl::symm` CBC) -/

/-- PKCS#7: append `p` copies of `p`, where `p = 16 - len % 16` (so `1 ≤ p ≤ 16`). -/
def pkcs7pad (data : List Nat) : List Nat :=
  data ++ List.replicate (16 - data.length % 16) (16 - data.length % 16)

/-- PKCS#7 removal: the last byte `p` (read as `data.reverse.headD 0`, which is
`0` exactly for the empty input) must satisfy `1 ≤ p ≤ 16` and the last `p`
bytes must all equal `p`; they are stripped.  `none` models the OpenSSL
bad-padding failure. -/
def pkcs7unpad (data : List Nat) : Option (List Nat) :=
  if data.reverse.headD 0 = 0 ∨ 16 < data.reverse.headD 0 ∨
      data.length < data.reverse.headD 0 then none
  else if data.drop (data.length - data.reverse.headD 0) =
      List.replicate (data.reverse.headD 0) (data.reverse.headD 0) then
    some (data.take (data.length - data.reverse.headD 0))
  else none

theorem pkcs7pad_length (data : List Nat) :
    (pkcs7pad data).length = data.length + (16 - data.length % 16) := by
  simp [pkcs7pad]

theorem pkcs7pad_length_mod (data : List Nat) : (pkcs7pad data).length % 16 = 0 := by
  rw [pkcs7pad_length]
  omega

theorem pkcs7pad_length_pos (data : List Nat) : 0 < (pkcs7pad data).length := by
  rw [pkcs7pad_length]
  omega

theorem pkcs7unpad_append_replicate (data : List Nat) (q : Nat) (hq : q + 1 ≤ 16) :
    pkcs7unpad (data ++ List.replicate (q + 1) (q + 1)) = some data := by
  unfold pkcs7unpad
  have hhead : (data ++ List.replicate (q + 1) (q + 1)).reverse.headD 0 = q + 1 := by
    rw [List.reverse_append, List.reverse_replicate, List.replicate_succ, List.cons_append,
      List.headD_cons]
  rw [hhead]
  simp only [List.length_append, List.length_replicate]
  rw [if_neg (by omega)]
  rw [show data.length + (q + 1) - (q + 1) = data.length from by omega]
  rw [List.drop_left, List.take_left, if_pos rfl]

theorem pkcs7unpad_pkcs7pad (data : List Nat) : pkcs7unpad (pkcs7pad data) = some data := by
  have hsucc : 16 - data.length % 16 = (15 - data.length % 16) + 1 := by omega
  rw [pkcs7pad, hsucc]
  exact pkcs7unpad_append_replicate data (15 - data.length % 16) (by omega)

theorem pkcs7pad_lt (data : List Nat) (h : ∀ b ∈ data, b < 256) :
    ∀ b ∈ pkcs7pad data, b < 256 := by
  intro b hb
  unfold pkcs7pad at hb
  rcases List.mem_append.mp hb with hb | hb
  · exact h b hb
  · have := List.eq_of_mem_replicate hb
    omega

/-! ## Models of `openssl::symm::encrypt` / `decrypt` with `Cipher::aes_128_cbc`

Contract relied on by the source: the key must be exactly 16 bytes and the IV
exactly 16 bytes (other lengths make `Crypter::new` fail, surfacing as a
cipher error); encryption PKCS#7-pads and applies the cipher; decryption
requires a nonempty input of block-multiple length, applies the inverse
cipher and strips the padding, failing on bad padding. -/

def symm_encrypt (key iv data : List Nat) : LabradorResult (List Nat) :=
  if key.length ≠ 16 then .error .cipherError
  else if iv.length ≠ 16 then .error .cipherError
  else .ok (mask key iv (pkcs7pad data))

def symm_decrypt (key iv data : List Nat) : LabradorResult (List Nat) :=
  if key.length ≠ 16 then .error .cipherError
  else if iv.length ≠ 16 then .error .cipherError
  else if data.length % 16 ≠ 0 ∨ data.length = 0 then .error .cipherError
  else
    match pkcs7unpad (mask key iv data) with
    | none => .error .cipherError
    | some p => .ok p

/-- Decryption inverts encryption for a 16-byte key and 16-byte IV. -/
theorem symm_decrypt_symm_encrypt (key iv data : List Nat)
    (hk : key.length = 16) (hiv : iv.length = 16) :
    (symm_encrypt key iv data).bind (symm_decrypt key iv) = .ok data := by
  unfold symm_encrypt symm_decrypt
  rw [if_neg (by omega), if_neg (by omega)]
  simp only [Except.bind]
  rw [if_neg (by omega), if_neg (by omega)]
  have hlen : (mask key iv (pkcs7pad data)).length = (pkcs7pad data).length :=
    mask_length key iv (pkcs7pad data)
  have h1 : ¬((mask key iv (pkcs7pad data)).length % 16 ≠ 0 ∨
      (mask key iv (pkcs7pad data)).length = 0) := by
    rw [hlen]
    have := pkcs7pad_length_mod data
    have := pkcs7pad_length_pos data
    omega
  rw [if_neg h1, mask_mask, pkcs7unpad_pkcs7pad]

/-! ## Model of the `base64` crate (standard alphabet, `=` padding)

`base64::encode` / `base64::decode` as used at `prp.rs` lines 55, 61, 114,
125, 134 and 153: standard alphabet, padded output, decode failing with an
encoding error on malformed input. -/

/-- Character (ASCII code) of a 6-bit group in the standard base64 alphabet. -/
def b64Char (n : Nat) : Nat :=
  if n < 26 then 65 + n
  else if n < 52 then 71 + n
  else if n < 62 then n - 4
  else if n = 62 then 43
  else 47

/-- Inverse of `b64Char` on the standard alphabet; `none` off the alphabet
(in particular on the pad character `=`, ASCII 61). -/
def b64Index (c : Nat) : Option Nat :=
  if 65 ≤ c ∧ c ≤ 90 then some (c - 65)
  else if 97 ≤ c ∧ c ≤ 122 then some (c - 71)
  else if 48 ≤ c ∧ c ≤ 57 then some (c + 4)
  else if c = 43 then some 62
  else if c = 47 then some 63
  else none

/-- Base64-encode a byte list, three bytes to four characters, padding the
final group with `=` (ASCII 61). -/
def base64Encode : List Nat → List Nat
  | [] => []
  | [a] => [b64Char (a / 4), b64Char (a % 4 * 16), 61, 61]
  | [a, b] => [b64Char (a / 4), b64Char (a % 4 * 16 + b / 16), b64Char (b % 16 * 4), 61]
  | a :: b :: c :: rest =>
      b64Char (a / 4) :: b64Char (a % 4 * 16 + b / 16) :: b64Char (b % 16 * 4 + c / 64) ::
        b64Char (c % 64) :: base64Encode rest

/-- Base64-decode, four characters to three bytes, accepting `=` padding only
at the end of the input; any other shape is an encoding error. -/
def base64Decode : List Nat → LabradorResult (List Nat)
  | [] => .ok []
  | c1 :: c2 :: c3 :: c4 :: rest =>
      match b64Index c1, b64Index c2 with
      | some x, some y =>
          if c3 = 61 then
            if c4 = 61 ∧ rest = [] then .ok [x * 4 + y / 16]
            else .error .encodingError
          else
            match b64Index c3 with
            | some z =>
                if c4 = 61 then
                  if rest = [] then .ok [x * 4 + y / 16, y % 16 * 16 + z / 4]
                  else .error .encodingError
                else
                  match b64Index c4 with
                  | some w =>
                      match base64Decode rest with
                      | .ok t =>
                          .ok ((x * 4 + y / 16) :: (y % 16 * 16 + z / 4) :: (z % 4 * 64 + w) :: t)
                      | .error _ => .error .encodingError
                  | none => .error .encodingError
            | none => .error .encodingError
      | _, _ => .error .encodingError
  | _ => .error .encodingError

theorem b64Index_b64Char : ∀ n < 64, b64Index (b64Char n) = some n := by decide

theorem b64Char_ne_61 : ∀ n < 64, b64Char n ≠ 61 := by decide

theorem base64_decode_encode :
    ∀ data : List Nat, (∀ b ∈ data, b < 256) → base64Decode (base64Encode data) = .ok data := by
  have aux : ∀ (n : Nat) (data : List Nat), data.length ≤ n → (∀ b ∈ data, b < 256) →
      base64Decode (base64Encode data) = .ok data := by
    intro n
    induction n with
    | zero =>
        intro data hl _
        have : data = [] := List.length_eq_zero.mp (by omega)
        subst this
        rfl
    | succ n ih =>
        intro data hl hb
        match data with
        | [] => rfl
        | [a] =>
            have ha : a < 256 := hb a (by simp)
            show base64Decode [b64Char (a / 4), b64Char (a % 4 * 16), 61, 61] = .ok [a]
            simp only [base64Decode, b64Index_b64Char (a / 4) (by omega),
              b64Index_b64Char (a % 4 * 16) (by omega), if_pos rfl, and_self, if_pos,
              List.nil_eq, and_true]
            have h1 : a / 4 * 4 + a % 4 * 16 / 16 = a := by omega
            rw [h1]
        | [a, b] =>
            have ha : a < 256 := hb a (by simp)
            have hbb : b < 256 := hb b (by simp)
            show base64Decode
                [b64Char (a / 4), b64Char (a % 4 * 16 + b / 16), b64Char (b % 16 * 4), 61]
              = .ok [a, b]
            simp only [base64Decode, b64Index_b64Char (a / 4) (by omega),
              b64Index_b64Char (a % 4 * 16 + b / 16) (by omega),
              if_neg (b64Char_ne_61 (b % 16 * 4) (by omega)),
              b64Index_b64Char (b % 16 * 4) (by omega), if_pos rfl]
            have h1 : a / 4 * 4 + (a % 4 * 16 + b / 16) / 16 = a := by omega
            have h2 : (a % 4 * 16 + b / 16) % 16 * 16 + b % 16 * 4 / 4 = b := by omega
            rw [h1, h2]
            simp only [if_true]
        | a :: b :: c :: rest =>
            have ha : a < 256 := hb a (by simp)
            have hbb : b < 256 := hb b (by simp)
            have hc : c < 256 := hb c (by simp)
            have hrest : base64Decode (base64Encode rest) = .ok rest := by
              apply ih
              · simp at hl ⊢; omega
              · intro x hx; exact hb x (by simp [hx])
            show base64Decode
                (b64Char (a / 4) :: b64Char (a % 4 * 16 + b / 16) ::
                  b64Char (b % 16 * 4 + c / 64) :: b64Char (c % 64) ::
                  base64Encode rest)
              = .ok (a :: b :: c :: rest)
            simp only [base64Decode, b64Index_b64Char (a / 4) (by omega),
              b64Index_b64Char (a % 4 * 16 + b / 16) (by omega),
              if_neg (b64Char_ne_61 (b % 16 * 4 + c / 64) (by omega)),
              b64Index_b64Char (b % 16 * 4 + c / 64) (by omega),
              if_neg (b64Char_ne_61 (c % 64) (by omega)),
              b64Index_b64Char (c % 64) (by omega), hrest]
            have h1 : a / 4 * 4 + (a % 4 * 16 + b / 16) / 16 = a := by omega
            have h2 : (a % 4 * 16 + b / 16) % 16 * 16 + (b % 16 * 4 + c / 64) / 4 = b := by omega
            have h3 : (b % 16 * 4 + c / 64) % 4 * 64 + c % 64 = c := by omega
            rw [h1, h2, h3]
  intro data hb
  exact aux data.length data (le_refl _) hb

/-! ## Model of `rustc_serialize` hex (`ToHex` / `FromHex`)

`to_hex` emits lowercase hexadecimal; `from_hex` decodes pairs of hex digits
(either case), failing with an encoding error otherwise. -/

/-- Lowercase hex digit character (ASCII code) of a value below 16. -/
def hexChar (n : Nat) : Nat := if n < 10 then 48 + n else 87 + n

/-- Value of a hex digit character, accepting both cases; `none` otherwise. -/
def hexVal (c : Nat) : Option Nat :=
  if 48 ≤ c ∧ c ≤ 57 then some (c - 48)
  else if 97 ≤ c ∧ c ≤ 102 then some (c - 87)
  else if 65 ≤ c ∧ c ≤ 70 then some (c - 55)
  else none

/-- Model of `ToHex::to_hex`: two lowercase hex characters per byte. -/
def toHex : List Nat → List Nat
  | [] => []
  | b :: rest => hexChar (b / 16) :: hexChar (b % 16) :: toHex rest

/-- Model of `FromHex::from_hex`: decode hex digit pairs, failing with an
encoding error on a non-digit or an odd-length input. -/
def fromHex : List Nat → LabradorResult (List Nat)
  | [] => .ok []
  | h :: l :: rest =>
      match hexVal h, hexVal l with
      | some x, some y =>
          match fromHex rest with
          | .ok t => .ok ((x * 16 + y) :: t)
          | .error _ => .error .encodingError
      | _, _ => .error .encodingError
  | _ => .error .encodingError

theorem hexVal_hexChar : ∀ n < 16, hexVal (hexChar n) = some n := by decide

theorem fromHex_toHex (data : List Nat) (h : ∀ b ∈ data, b < 256) :
    fromHex (toHex data) = .ok data := by
  induction data with
  | nil => rfl
  | cons b rest ih =>
      have hb : b < 256 := h b (by simp)
      have hrest : fromHex (toHex rest) = .ok rest := ih (fun x hx => h x (by simp [hx]))
      show fromHex (hexChar (b / 16) :: hexChar (b % 16) :: toHex rest) = .ok (b :: rest)
      simp only [fromHex, hexVal_hexChar (b / 16) (by omega),
        hexVal_hexChar (b % 16) (by omega), hrest]
      have h1 : b / 16 * 16 + b % 16 = b := by omega
      rw [h1]

/-- A character is a lowercase hex digit. -/
def isLowerHexDigit (c : Nat) : Bool := (48 ≤ c && c ≤ 57) || (97 ≤ c && c ≤ 102)

theorem toHex_lower (data : List Nat) (h : ∀ b ∈ data, b < 256) :
    ∀ c ∈ toHex data, isLowerHexDigit c = true := by
  induction data with
  | nil => intro c hc; cases hc
  | cons b rest ih =>
      intro c hc
      have hb : b < 256 := h b (by simp)
      simp only [toHex, List.mem_cons] at hc
      rcases hc with hc | hc | hc
      · subst hc; unfold hexChar isLowerHexDigit; split <;> simp <;> omega
      · subst hc; unfold hexChar isLowerHexDigit; split <;> simp <;> omega
      · exact ih (fun x hx => h x (by simp [hx])) c hc

/-! ## Big-endian 32-bit length field

Models lines 51 and 63 of `prp.rs`: `(plaintext.len() as u32).to_be()` written
with a native-endian writer always emits the four big-endian bytes, and the
read-back `u32::from_be(rdr.read_u32::<NativeEndian>())` is its inverse. -/

/-- The four big-endian bytes of `n % 2^32`. -/
def be32Bytes (n : Nat) : List Nat :=
  [n / 16777216 % 256, n / 65536 % 256, n / 256 % 256, n % 256]

/-- Read four bytes as a big-endian 32-bit value (`0` on a malformed list;
the source cursor reads exactly the 4-byte slice `text[16..20]`). -/
def readBe32 (l : List Nat) : Nat :=
  match l with
  | [a, b, c, d] => ((a * 256 + b) * 256 + c) * 256 + d
  | _ => 0

theorem be32Bytes_length (n : Nat) : (be32Bytes n).length = 4 := rfl

theorem readBe32_be32Bytes (n : Nat) (h : n < 4294967296) : readBe32 (be32Bytes n) = n := by
  simp only [be32Bytes, readBe32]
  omega

theorem be32Bytes_lt (n : Nat) : ∀ b ∈ be32Bytes n, b < 256 := by
  intro b hb
  simp only [be32Bytes, List.mem_cons, List.not_mem_nil, or_false] at hb
  rcases hb with hb | hb | hb | hb <;> (subst hb; omega)

/-! ## UTF-8 validation (models `String::from_utf8`)

`String::from_utf8(v)` succeeds exactly when `v` is valid UTF-8 (correct
continuation bytes, no overlong forms, no surrogates, maximum U+10FFFF), and
then the string's bytes are `v` itself.  The source combines it with
`unwrap_or_default()`, turning a failed validation into the empty string. -/

/-- A UTF-8 continuation byte: `0x80 ≤ c < 0xC0`. -/
def isCont (c : Nat) : Bool := 128 ≤ c && c < 192

/-- UTF-8 validity of a byte list, per the standard table of well-formed
sequences (RFC 3629). -/
def utf8Valid : List Nat → Bool
  | [] => true
  | c :: rest =>
      if c < 128 then utf8Valid rest
      else if c < 194 then false
      else if c < 224 then
        match rest with
        | c1 :: r => isCont c1 && utf8Valid r
        | _ => false
      else if c = 224 then
        match rest with
        | c1 :: c2 :: r => (160 ≤ c1 && c1 < 192) && isCont c2 && utf8Valid r
        | _ => false
      else if c < 237 then
        match rest with
        | c1 :: c2 :: r => isCont c1 && isCont c2 && utf8Valid r
        | _ => false
      else if c = 237 then
        match rest with
        | c1 :: c2 :: r => (128 ≤ c1 && c1 < 160) && isCont c2 && utf8Valid r
        | _ => false
      else if c < 240 then
        match rest with
        | c1 :: c2 :: r => isCont c1 && isCont c2 && utf8Valid r
        | _ => false
      else if c = 240 then
        match rest with
        | c1 :: c2 :: c3 :: r => (144 ≤ c1 && c1 < 192) && isCont c2 && isCont c3 && utf8Valid r
        | _ => false
      else if c < 244 then
        match rest with
        | c1 :: c2 :: c3 :: r => isCont c1 && isCont c2 && isCont c3 && utf8Valid r
        | _ => false
      else if c = 244 then
        match rest with
        | c1 :: c2 :: c3 :: r => (128 ≤ c1 && c1 < 144) && isCont c2 && isCont c3 && utf8Valid r
        | _ => false
      else false

/-- Model of `String::from_utf8(bytes).unwrap_or_default()` at the byte level:
the bytes themselves when valid UTF-8, the empty string otherwise. -/
def utf8OrEmpty (bytes : List Nat) : List Nat :=
  if utf8Valid bytes then bytes else []

theorem utf8OrEmpty_valid (bytes : List Nat) (h : utf8Valid bytes = true) :
    utf8OrEmpty bytes = bytes := by
  unfold utf8OrEmpty
  rw [h]
  simp

/-! ## Models of `openssl::symm::encrypt_aead` / `decrypt_aead` with `Cipher::aes_256_gcm`

Contract relied on by the source: the key must be exactly 32 bytes and the
nonce nonempty (other shapes fail with a cipher error); encryption is
length-preserving and fills the caller's 16-byte tag buffer with the
authentication tag over `(key, nonce, aad, ciphertext)`; decryption returns
the plaintext when given exactly that tag and fails authentication
otherwise.  The GCM keystream is idealized with the same involutive byte
mask as the CBC core, keyed by `(key, nonce)`. -/

/-- The 16-byte GCM authentication tag of `(key, nonce, aad, ciphertext)`. -/
def gcmTag (key nonce aad ct : List Nat) : List Nat :=
  (List.range 16).map
    (fun i => (key ++ nonce ++ aad ++ ct).foldl (fun a b => (a * 131 + b + 7) % 256) (i * 3 + 1))

/-- Model of `symm::encrypt_aead` with `Cipher::aes_256_gcm`: returns the
ciphertext together with the tag written into the caller's `out_tag` buffer. -/
def encrypt_aead (key nonce aad pt : List Nat) : LabradorResult (List Nat × List Nat) :=
  if key.length ≠ 32 then .error .cipherError
  else if nonce.length = 0 then .error .cipherError
  else .ok (mask key nonce pt, gcmTag key nonce aad (mask key nonce pt))

/-- Model of `symm::decrypt_aead` with `Cipher::aes_256_gcm`: checks the tag
against `(key, nonce, aad, ciphertext)` and only then releases the
plaintext; a wrong tag is an authentication failure. -/
def decrypt_aead (key nonce aad ct tag : List Nat) : LabradorResult (List Nat) :=
  if key.length ≠ 32 then .error .cipherError
  else if nonce.length = 0 then .error .cipherError
  else if tag = gcmTag key nonce aad ct then .ok (mask key nonce ct)
  else .error .authenticationFailure

/-! ## Model of the OpenSSL RSA-SHA256 verification path

`Rsa::public_key_from_pem` parses PEM key material, failing with a key-parse
error on malformed input; modelled as a well-formedness test on the PEM
marker.  `Verifier::verify` is total on a parsed key: it returns `true` for
the matching signature bytes and `false` (not an error) otherwise; modelled
as comparison against a canonical signature byte string determined by the
key and content. -/

/-- The ASCII bytes of the PEM marker `-----BEGIN`. -/
def pemMarker : List Nat := [45, 45, 45, 45, 45, 66, 69, 71, 73, 78]

/-- Modelled from the library contract: PEM material is well-formed when it
carries the PEM begin marker. -/
def wellFormedPem (pk : List Nat) : Bool := pk.take 10 = pemMarker

/-- Modelled RSA-SHA256 signature bytes determined by key and content: the
stand-in for the unique valid signature `Verifier::verify` accepts. -/
def rsaSigBytes (pk content : List Nat) : List Nat :=
  (List.range 32).map
    (fun i => (pk ++ content).foldl (fun a b => (a * 167 + b + 3) % 256) (i * 5 + 2))

/-- Model of `Verifier::verify` on a parsed key: `true` exactly on the
canonical signature bytes, `false` — not an error — on any other bytes. -/
def rsaVerifyBytes (pk content sig : List Nat) : Bool := sig = rsaSigBytes pk content

/-! ## The `PrpCrypto` struct and its methods (`src/util/prp.rs`) -/

/-- `PrpCrypto { key: Vec<u8> }`. -/
structure PrpCrypto where
  key : List Nat
deriving DecidableEq, Repr

/-- `PrpCrypto::new`. -/
def PrpCrypto.new (key : List Nat) : PrpCrypto := ⟨key⟩

/-- `PrpCrypto::aes_128_cbc_encrypt_msg` (lines 49-57).  The internal 16-byte
random string (`get_random_string`, fixed to `"1234567890123456"` under
`cfg(test)` and 16 random alphanumeric bytes otherwise) is passed as the
explicit argument `rand16`.  The frame is
`rand16 ++ be_u32(len plaintext) ++ plaintext ++ id`; the length is written
as `plaintext.len() as u32`, truncating modulo `2^32`.  The slice
`&self.key[..16]` aborts (`none`) when the key is shorter than 16 bytes;
otherwise the frame is AES-128-CBC encrypted with IV `key[0:16]` and
base64-encoded. -/
def PrpCrypto.aes_128_cbc_encrypt_msg (self : PrpCrypto) (rand16 plaintext id : List Nat) :
    Option (LabradorResult (List Nat)) :=
  let wtr := rand16 ++ be32Bytes (plaintext.length % 4294967296) ++ plaintext ++ id
  if self.key.length < 16 then none
  else
    match symm_encrypt self.key (self.key.take 16) wtr with
    | .error e => some (.error e)
    | .ok encrypted => some (.ok (base64Encode encrypted))

/-- `PrpCrypto::aes_128_cbc_decrypt_msg` (lines 60-72): base64-decode,
AES-128-CBC decrypt with IV `key[0:16]` (the slice aborts on a key shorter
than 16 bytes), read the big-endian length field `text[16..20]` (the slice
aborts when the decrypted frame is shorter than 20 bytes), slice
`content = text[20 .. 20+len]` and `from_id = text[20+len ..]` (these abort
when the frame is shorter than `20 + len`), compare `from_id` with the
expected id, and interpret the content with
`String::from_utf8(..).unwrap_or_default()`. -/
def PrpCrypto.aes_128_cbc_decrypt_msg (self : PrpCrypto) (ciphertext id : List Nat) :
    Option (LabradorResult (List Nat)) :=
  match base64Decode ciphertext with
  | .error e => some (.error e)
  | .ok b64decoded =>
      if self.key.length < 16 then none
      else
        match symm_decrypt self.key (self.key.take 16) b64decoded with
        | .error e => some (.error e)
        | .ok text =>
            if text.length < 20 then none
            else
              let content_length := readBe32 ((text.drop 16).take 4)
              if text.length < content_length + 20 then none
              else
                let content := (text.drop 20).take content_length
                let from_id := text.drop (content_length + 20)
                if from_id ≠ id then some (.error .identityMismatch)
                else some (.ok (utf8OrEmpty content))

/-- `PrpCrypto::aes_128_cbc_decrypt_data` (lines 76-81): hex-decode,
AES-128-CBC decrypt with the caller-supplied IV, interpret with
`String::from_utf8(..).unwrap_or_default()`. -/
def PrpCrypto.aes_128_cbc_decrypt_data (self : PrpCrypto) (ciphertext iv : List Nat) :
    LabradorResult (List Nat) :=
  match fromHex ciphertext with
  | .error e => .error e
  | .ok data =>
      match symm_decrypt self.key iv data with
      | .error e => .error e
      | .ok text => .ok (utf8OrEmpty text)

/-- `PrpCrypto::aes_128_cbc_encrypt_data` (lines 85-88): AES-128-CBC encrypt
the plaintext bytes with the caller-supplied IV and hex-encode the result. -/
def PrpCrypto.aes_128_cbc_encrypt_data (self : PrpCrypto) (plaintext iv : List Nat) :
    LabradorResult (List Nat) :=
  match symm_encrypt self.key iv plaintext with
  | .error e => .error e
  | .ok text => .ok (toHex text)

/-- `PrpCrypto::rsa_sha256_verify` (lines 152-164): base64-decode the
signature, round-trip it through `to_hex`/`from_hex`, parse the PEM public
key, and return the boolean verification result. -/
def PrpCrypto.rsa_sha256_verify (public_key content sign : List Nat) :
    LabradorResult Bool :=
  match base64Decode sign with
  | .error e => .error e
  | .ok sig =>
      match fromHex (toHex sig) with
      | .error e => .error e
      | .ok sig =>
          if wellFormedPem public_key then .ok (rsaVerifyBytes public_key content sig)
          else .error .keyParseError

/-- `PrpCrypto::aes_256_gcm_encrypt` (lines 174-179): allocates a 16-byte
`out_tag` buffer, calls `symm::encrypt_aead` (which fills the buffer with
the authentication tag) — and returns only the ciphertext, dropping the
tag. -/
def PrpCrypto.aes_256_gcm_encrypt (self : PrpCrypto) (associated_data nonce plain_text : List Nat) :
    LabradorResult (List Nat) :=
  match encrypt_aead self.key nonce associated_data plain_text with
  | .error e => .error e
  | .ok (encrypted, _out_tag) => .ok encrypted

/-- `PrpCrypto::aes_256_gcm_decrypt` (lines 182-185). -/
def PrpCrypto.aes_256_gcm_decrypt (self : PrpCrypto) (associated_data nonce ciphertext tag : List Nat) :
    LabradorResult (List Nat) :=
  decrypt_aead self.key nonce associated_data ciphertext tag

/-! ## `Article` and `ArticlesReply` (`src/wechat/mp/replies/articles.rs`)

`current_timestamp()` is external to the sources; the construction time is
passed as the explicit argument `now`. -/

/-- `Article` (lines 4-10). -/
structure Article where
  title : String
  description : String
  url : String
  image : String
deriving DecidableEq, Repr

/-- `Article::new` (lines 23-31). -/
def Article.new (title url : String) : Article :=
  { title := title, url := url, image := "", description := "" }

/-- `Article::with_image` (lines 33-41). -/
def Article.with_image (title url image : String) : Article :=
  { title := title, url := url, image := image, description := "" }

/-- `Article::with_description` (lines 43-51). -/
def Article.with_description (title url description : String) : Article :=
  { title := title, url := url, image := "", description := description }

/-- `Article::render` (lines 73-85). -/
def Article.render (a : Article) : String :=
  "<item>\n\n            <Title><![CDATA[" ++ a.title ++ "]]></Title>\n" ++
  "<Description><![CDATA[" ++ a.description ++ "]]></Description>\n" ++
  "<PicUrl><![CDATA[" ++ a.image ++ "]]></PicUrl>\n" ++
  "<Url><![CDATA[" ++ a.url ++ "]]></Url>\n" ++
  "</item>"

/-- `ArticlesReply` (lines 12-18). -/
structure ArticlesReply where
  source : String
  target : String
  time : Int
  articles : List Article
deriving DecidableEq, Repr

/-- `ArticlesReply::new` (lines 90-98); `now` stands for `current_timestamp()`. -/
def ArticlesReply.new (source target : String) (now : Int) : ArticlesReply :=
  { source := source, target := target, time := now, articles := [] }

/-- `ArticlesReply::with_articles` (lines 100-108). -/
def ArticlesReply.with_articles (source target : String) (now : Int)
    (articles : List Article) : ArticlesReply :=
  { source := source, target := target, time := now, articles := articles }

/-- `ArticlesReply::add_article` (lines 110-116): refuse (returning `false`,
reply unchanged) when 10 or more articles are already present, else push the
article and return `true`.  The `&mut self` update is modelled by returning
the new reply alongside the boolean. -/
def ArticlesReply.add_article (self : ArticlesReply) (article : Article) :
    Bool × ArticlesReply :=
  if 10 ≤ self.articles.length then (false, self)
  else (true, { self with articles := self.articles ++ [article] })

/-- The `ArticleCount` field emitted by `ArticlesReply::render` (line 138:
`count = self.articles.len()`). -/
def ArticlesReply.articleCount (self : ArticlesReply) : Nat := self.articles.length

/-- `ArticlesReply::render` (`impl ReplyRenderer`, lines 119-142). -/
def ArticlesReply.render (self : ArticlesReply) : String :=
  "<xml>\n<ToUserName><![CDATA[" ++ self.target ++ "]]></ToUserName>\n" ++
  "<FromUserName><![CDATA[" ++ self.source ++ "]]></FromUserName>\n" ++
  "<CreateTime>" ++ toString self.time ++ "</CreateTime>\n" ++
  "<MsgType><![CDATA[news]]></MsgType>\n" ++
  "<ArticleCount>" ++ toString self.articleCount ++ "</ArticleCount>\n" ++
  "<Articles>" ++ String.intercalate "\n" (self.articles.map Article.render) ++ "</Articles>\n" ++
  "</xml>"

/-- Replies reachable through the constructions named by the claim: `new`,
`with_articles` with fewer than ten articles, and `add_article`. -/
inductive BuiltReply : ArticlesReply → Prop where
  | new : ∀ (s t : String) (now : Int), BuiltReply (ArticlesReply.new s t now)
  | withArticles : ∀ (s t : String) (now : Int) (arts : List Article),
      arts.length < 10 → BuiltReply (ArticlesReply.with_articles s t now arts)
  | add : ∀ (r : ArticlesReply) (a : Article),
      BuiltReply r → BuiltReply (r.add_article a).2

/-! ## Message-path round-trip machinery -/

/-- The plaintext frame built by `aes_128_cbc_encrypt_msg`. -/
theorem frame_bytes_lt (rand16 C I : List Nat) (n : Nat)
    (hbr : ∀ b ∈ rand16, b < 256) (hbC : ∀ b ∈ C, b < 256) (hbI : ∀ b ∈ I, b < 256) :
    ∀ b ∈ rand16 ++ be32Bytes n ++ C ++ I, b < 256 := by
  intro b hb
  simp only [List.mem_append] at hb
  rcases hb with ((hb | hb) | hb) | hb
  · exact hbr b hb
  · exact be32Bytes_lt n b hb
  · exact hbC b hb
  · exact hbI b hb

/-- Slicing the frame: the length field, the content and the trailing id. -/
theorem frame_slices (rand16 C I : List Nat) (n : Nat)
    (hr : rand16.length = 16) :
    ((rand16 ++ be32Bytes n ++ C ++ I).drop 16).take 4 = be32Bytes n ∧
    ((rand16 ++ be32Bytes n ++ C ++ I).drop 20).take C.length = C ∧
    (rand16 ++ be32Bytes n ++ C ++ I).drop (C.length + 20) = I := by
  have hassoc : rand16 ++ be32Bytes n ++ C ++ I = rand16 ++ (be32Bytes n ++ (C ++ I)) := by
    simp [List.append_assoc]
  have hd16 : (rand16 ++ be32Bytes n ++ C ++ I).drop 16 = be32Bytes n ++ (C ++ I) := by
    rw [hassoc, ← hr, List.drop_left]
  have hd20 : (rand16 ++ be32Bytes n ++ C ++ I).drop 20 = C ++ I := by
    rw [show (20 : Nat) = 16 + 4 from rfl, ← List.drop_drop, hd16]
    rw [show (be32Bytes n ++ (C ++ I)).drop 4 = C ++ I from by
      rw [← be32Bytes_length n, List.drop_left]]
  refine ⟨?_, ?_, ?_⟩
  · rw [hd16, ← be32Bytes_length n, List.take_left]
  · rw [hd20, List.take_left]
  · rw [show C.length + 20 = 20 + C.length from by omega, ← List.drop_drop, hd20,
      List.drop_left]

/-- The ciphertext the message path produces for a 16-byte key: closed form
derived from `aes_128_cbc_encrypt_msg`. -/
def msgCiphertext (key rand16 C I : List Nat) : List Nat :=
  base64Encode (mask key (key.take 16)
    (pkcs7pad (rand16 ++ be32Bytes (C.length % 4294967296) ++ C ++ I)))

/-- Round trip of the message path, for either the matching or a mismatching
expected id: encryption succeeds, and decryption either flags the identity
mismatch or returns the UTF-8 interpretation of the content. -/
theorem aes_128_cbc_msg_roundtrip (key rand16 C I I' : List Nat)
    (hk : key.length = 16) (hr : rand16.length = 16)
    (hbr : ∀ b ∈ rand16, b < 256) (hbC : ∀ b ∈ C, b < 256) (hbI : ∀ b ∈ I, b < 256)
    (hlen : C.length < 4294967296) :
    (PrpCrypto.new key).aes_128_cbc_encrypt_msg rand16 C I
        = some (.ok (msgCiphertext key rand16 C I)) ∧
      (PrpCrypto.new key).aes_128_cbc_decrypt_msg (msgCiphertext key rand16 C I) I' =
        some (if I = I' then .ok (utf8OrEmpty C) else .error .identityMismatch) := by
  have hmod : C.length % 4294967296 = C.length := Nat.mod_eq_of_lt hlen
  set wtr := rand16 ++ be32Bytes (C.length % 4294967296) ++ C ++ I with hwtr
  have hkey : (PrpCrypto.new key).key = key := rfl
  have hiv : (key.take 16).length = 16 := by
    rw [List.length_take]
    omega
  have hwb : ∀ b ∈ wtr, b < 256 := frame_bytes_lt rand16 C I _ hbr hbC hbI
  have hmb : ∀ b ∈ mask key (key.take 16) (pkcs7pad wtr), b < 256 :=
    mask_lt _ _ _ (pkcs7pad_lt _ hwb)
  have hnlt : ¬ key.length < 16 := by omega
  have henc : symm_encrypt key (key.take 16) wtr
      = .ok (mask key (key.take 16) (pkcs7pad wtr)) := by
    unfold symm_encrypt
    rw [if_neg (by omega), if_neg (by omega)]
  have hdec2 : symm_decrypt key (key.take 16) (mask key (key.take 16) (pkcs7pad wtr))
      = .ok wtr := by
    unfold symm_decrypt
    rw [if_neg (by omega), if_neg (by omega)]
    have hml : (mask key (key.take 16) (pkcs7pad wtr)).length = (pkcs7pad wtr).length :=
      mask_length _ _ _
    rw [if_neg (by
      rw [hml]
      have := pkcs7pad_length_mod wtr
      have := pkcs7pad_length_pos wtr
      omega)]
    rw [mask_mask, pkcs7unpad_pkcs7pad]
  have hwlen : wtr.length = 16 + 4 + C.length + I.length := by
    rw [hwtr]
    simp only [List.length_append, be32Bytes_length]
    omega
  obtain ⟨hs1, hs2, hs3⟩ := frame_slices rand16 C I (C.length % 4294967296) hr
  have hcl : readBe32 ((wtr.drop 16).take 4) = C.length := by
    rw [hwtr, hs1, readBe32_be32Bytes _ (by omega), hmod]
  have hcontent : (wtr.drop 20).take C.length = C := by rw [hwtr, hs2]
  have hfrom : wtr.drop (C.length + 20) = I := by rw [hwtr, hs3]
  have hlt1 : ¬ wtr.length < 20 := by omega
  have hlt2 : ¬ wtr.length < C.length + 20 := by omega
  have hct : msgCiphertext key rand16 C I
      = base64Encode (mask key (key.take 16) (pkcs7pad wtr)) := by
    rw [msgCiphertext, ← hwtr]
  rw [hct]
  refine ⟨?_, ?_⟩
  · simp only [PrpCrypto.aes_128_cbc_encrypt_msg, hkey, ← hwtr, hnlt, if_false, henc]
  · simp only [PrpCrypto.aes_128_cbc_decrypt_msg, hkey, base64_decode_encode _ hmb,
      hdec2, hnlt, if_false, hcl, hlt1, hlt2, hcontent, hfrom]
    by_cases hII : I = I'
    · simp [hII]
    · simp [hII]

/-- C3: Message-path round trip: for every key of the length accepted by
AES-128-CBC (16 bytes), every UTF-8 content string `C` (of byte length
within the 32-bit length field) and every recipient id `I`, decrypting
`aes_128_cbc_encrypt_msg C I` with the same id `I` returns exactly `C`. -/
theorem C3_message_roundtrip (key rand16 C I : List Nat)
    (hk : key.length = 16) (hr : rand16.length = 16)
    (hbr : ∀ b ∈ rand16, b < 256) (hbC : ∀ b ∈ C, b < 256) (hbI : ∀ b ∈ I, b < 256)
    (hutf : utf8Valid C = true) (hlen : C.length < 4294967296) :
    (PrpCrypto.new key).aes_128_cbc_encrypt_msg rand16 C I
        = some (.ok (msgCiphertext key rand16 C I)) ∧
      (PrpCrypto.new key).aes_128_cbc_decrypt_msg (msgCiphertext key rand16 C I) I
        = some (.ok C) := by
  obtain ⟨h1, h2⟩ := aes_128_cbc_msg_roundtrip key rand16 C I I hk hr hbr hbC hbI hlen
  refine ⟨h1, ?_⟩
  rw [h2, if_pos rfl, utf8OrEmpty_valid C hutf]

/-- Witness for C3 at the concrete scenario of the spec shape: a 16-byte key,
content `"hi"`, recipient id `"a"`. -/
theorem C3_message_roundtrip_witness :
    (PrpCrypto.new (List.replicate 16 7)).aes_128_cbc_encrypt_msg
        (List.replicate 16 49) [104, 105] [97]
        = some (.ok (msgCiphertext (List.replicate 16 7) (List.replicate 16 49) [104, 105] [97])) ∧
      (PrpCrypto.new (List.replicate 16 7)).aes_128_cbc_decrypt_msg
        (msgCiphertext (List.replicate 16 7) (List.replicate 16 49) [104, 105] [97]) [97]
        = some (.ok [104, 105]) :=
  C3_message_roundtrip (List.replicate 16 7) (List.replicate 16 49) [104, 105] [97]
    (by decide) (by decide) (by decide) (by decide) (by decide) (by decide) (by decide)

/-- C4: Identity binding: decrypting a message encrypted for recipient id `I`
with a different expected id `I'` fails with `IdentityMismatch` (the source
error `LabraError::InvalidAppId`), the trailing frame segment being compared
byte-for-byte against the expected id. -/
theorem C4_identity_mismatch (key rand16 C I I' : List Nat)
    (hk : key.length = 16) (hr : rand16.length = 16)
    (hbr : ∀ b ∈ rand16, b < 256) (hbC : ∀ b ∈ C, b < 256) (hbI : ∀ b ∈ I, b < 256)
    (hlen : C.length < 4294967296) (hne : I ≠ I') :
    (PrpCrypto.new key).aes_128_cbc_encrypt_msg rand16 C I
        = some (.ok (msgCiphertext key rand16 C I)) ∧
      (PrpCrypto.new key).aes_128_cbc_decrypt_msg (msgCiphertext key rand16 C I) I'
        = some (.error .identityMismatch) := by
  obtain ⟨h1, h2⟩ := aes_128_cbc_msg_roundtrip key rand16 C I I' hk hr hbr hbC hbI hlen
  refine ⟨h1, ?_⟩
  rw [h2, if_neg hne]

/-- Witness for C4: ids `"a"` vs `"b"`. -/
theorem C4_identity_mismatch_witness :
    (PrpCrypto.new (List.replicate 16 7)).aes_128_cbc_encrypt_msg
        (List.replicate 16 49) [104, 105] [97]
        = some (.ok (msgCiphertext (List.replicate 16 7) (List.replicate 16 49) [104, 105] [97])) ∧
      (PrpCrypto.new (List.replicate 16 7)).aes_128_cbc_decrypt_msg
        (msgCiphertext (List.replicate 16 7) (List.replicate 16 49) [104, 105] [97]) [98]
        = some (.error .identityMismatch) :=
  C4_identity_mismatch (List.replicate 16 7) (List.replicate 16 49) [104, 105] [97] [98]
    (by decide) (by decide) (by decide) (by decide) (by decide) (by decide) (by decide)

/-- C6: Wire-format exactness: the plaintext frame built by
`aes_128_cbc_encrypt_msg` is `random16 ++ be_u32(len C) ++ C ++ R`; bytes
16..20 of the frame are the big-endian 32-bit encoding of the byte length of
`C` and read back as exactly that length (covering length 0 and lengths over
64KB, i.e. any length below `2^32`); the frame is AES-128-CBC encrypted with
IV equal to the first 16 bytes of the key and then base64-encoded. -/
theorem C6_wire_format (key rand16 C R : List Nat)
    (hk : key.length = 16) (hr : rand16.length = 16) (hlen : C.length < 4294967296) :
    (PrpCrypto.new key).aes_128_cbc_encrypt_msg rand16 C R =
      some (.ok (base64Encode (mask key (key.take 16)
        (pkcs7pad (rand16 ++ be32Bytes C.length ++ C ++ R))))) ∧
    ((rand16 ++ be32Bytes C.length ++ C ++ R).drop 16).take 4 = be32Bytes C.length ∧
    readBe32 (((rand16 ++ be32Bytes C.length ++ C ++ R).drop 16).take 4) = C.length := by
  have hmod : C.length % 4294967296 = C.length := Nat.mod_eq_of_lt hlen
  have hkey : (PrpCrypto.new key).key = key := rfl
  have hnlt : ¬ key.length < 16 := by omega
  have hiv : (key.take 16).length = 16 := by
    rw [List.length_take]
    omega
  have henc : symm_encrypt key (key.take 16) (rand16 ++ be32Bytes C.length ++ C ++ R)
      = .ok (mask key (key.take 16) (pkcs7pad (rand16 ++ be32Bytes C.length ++ C ++ R))) := by
    unfold symm_encrypt
    rw [if_neg (by omega), if_neg (by omega)]
  obtain ⟨hs1, _, _⟩ := frame_slices rand16 C R C.length hr
  refine ⟨?_, hs1, ?_⟩
  · simp only [PrpCrypto.aes_128_cbc_encrypt_msg, hkey, hmod, hnlt, if_false, henc]
  · rw [hs1, readBe32_be32Bytes _ hlen]

/-- Witness for C6 with content of length 0. -/
theorem C6_wire_format_witness :
    (PrpCrypto.new (List.replicate 16 7)).aes_128_cbc_encrypt_msg
        (List.replicate 16 49) [] [114] =
      some (.ok (base64Encode (mask (List.replicate 16 7) ((List.replicate 16 7).take 16)
        (pkcs7pad (List.replicate 16 49 ++ be32Bytes (List.length ([] : List Nat)) ++ [] ++ [114]))))) ∧
    ((List.replicate 16 49 ++ be32Bytes (List.length ([] : List Nat)) ++ [] ++ [114]).drop 16).take 4
      = be32Bytes (List.length ([] : List Nat)) ∧
    readBe32 (((List.replicate 16 49 ++ be32Bytes (List.length ([] : List Nat)) ++ [] ++ [114]).drop 16).take 4)
      = List.length ([] : List Nat) :=
  C6_wire_format (List.replicate 16 7) (List.replicate 16 49) [] [114]
    (by decide) (by decide) (by decide)

/-! ## Failure totality and abort behavior of the message path -/

/-- The call returned a typed error result. -/
def isTypedError {α : Type} : Option (LabradorResult α) → Bool
  | some (.error _) => true
  | _ => false

/-- C9 counterexample: with the empty key — shorter than 16 bytes — the
message-path encryption aborts at the slice `&self.key[..16]` (modelled as
`none`) instead of returning any typed result. -/
theorem C9_short_key_abort_counterexample :
    (PrpCrypto.new []).aes_128_cbc_encrypt_msg (List.replicate 16 49) [104] [97] = none := by
  rfl

/-- C9 (amended): for every key of length at least 16 the slice `key[..16]`
does not trap: `aes_128_cbc_encrypt_msg` always returns a typed result, a
key length other than 16 yields `CipherError`, and `aes_128_cbc_decrypt_msg`
under such a wrong-length key returns a typed error rather than aborting.
For keys shorter than 16 bytes the slice aborts (see the counterexample). -/
theorem C9_long_key_typed_results (key rand16 C I ct id : List Nat)
    (hk : 16 ≤ key.length) :
    ((PrpCrypto.new key).aes_128_cbc_encrypt_msg rand16 C I).isSome = true ∧
    (key.length ≠ 16 →
      (PrpCrypto.new key).aes_128_cbc_encrypt_msg rand16 C I
        = some (.error .cipherError)) ∧
    (key.length ≠ 16 →
      isTypedError ((PrpCrypto.new key).aes_128_cbc_decrypt_msg ct id) = true) := by
  have hkey : (PrpCrypto.new key).key = key := rfl
  have hnlt : ¬ key.length < 16 := by omega
  refine ⟨?_, ?_, ?_⟩
  · simp only [PrpCrypto.aes_128_cbc_encrypt_msg, hkey, hnlt, if_false]
    cases h : symm_encrypt key (key.take 16)
        (rand16 ++ be32Bytes (C.length % 4294967296) ++ C ++ I) with
    | error e => simp [h]
    | ok enc => simp [h]
  · intro hne
    have henc : symm_encrypt key (key.take 16)
        (rand16 ++ be32Bytes (C.length % 4294967296) ++ C ++ I) = .error .cipherError := by
      unfold symm_encrypt
      rw [if_pos hne]
    simp only [PrpCrypto.aes_128_cbc_encrypt_msg, hkey, hnlt, if_false, henc]
  · intro hne
    simp only [PrpCrypto.aes_128_cbc_decrypt_msg, hkey, hnlt, if_false]
    cases h : base64Decode ct with
    | error e => simp [h, isTypedError]
    | ok d =>
        have hdec : symm_decrypt key (key.take 16) d = .error .cipherError := by
          unfold symm_decrypt
          rw [if_pos hne]
        simp [h, hdec, isTypedError]

/-- Witness for the amended C9: a 17-byte key gives a typed `CipherError`
on the decrypt path instead of aborting. -/
theorem C9_long_key_typed_results_witness :
    isTypedError ((PrpCrypto.new (List.replicate 17 7)).aes_128_cbc_decrypt_msg [33] [97])
      = true :=
  (C9_long_key_typed_results (List.replicate 17 7) (List.replicate 16 49) [104] [97] [33] [97]
    (by decide)).2.2 (by decide)

/-- C5: the claim states that a decrypted frame shorter than `20 + length`
fails with the typed error `FrameTruncated`; the code instead aborts.  First
input: a valid ciphertext whose decrypted frame is 5 bytes (shorter than 20),
hitting the slice `text[16..20]` out of bounds.  Second input: a 21-byte
frame whose length field reads 5000, hitting `text[20..5020]` out of bounds.
Both abort (modelled `none`); no `FrameTruncated` result is produced. -/
theorem C5_truncated_frame_aborts :
    (PrpCrypto.new (List.replicate 16 7)).aes_128_cbc_decrypt_msg
      (base64Encode (mask (List.replicate 16 7) ((List.replicate 16 7).take 16)
        (pkcs7pad [1, 2, 3, 4, 5]))) [97] = none ∧
    (PrpCrypto.new (List.replicate 16 7)).aes_128_cbc_decrypt_msg
      (base64Encode (mask (List.replicate 16 7) ((List.replicate 16 7).take 16)
        (pkcs7pad (List.replicate 16 49 ++ be32Bytes 5000 ++ [1])))) [97] = none := by
  exact ⟨by decide, by decide⟩

/-- C2: the claim states that decrypted bytes that are not valid UTF-8 fail
with `TextDecodeError`; the code instead silently substitutes the empty
string (`String::from_utf8(..).unwrap_or_default()`).  On the message path a
frame whose single content byte is `0xFF` decrypts to `Ok("")`; on the data
path a ciphertext decrypting to the single byte `0xFF` likewise yields
`Ok("")`.  Neither returns an error. -/
theorem C2_invalid_utf8_empty_not_error :
    (PrpCrypto.new (List.replicate 16 7)).aes_128_cbc_decrypt_msg
      (base64Encode (mask (List.replicate 16 7) ((List.replicate 16 7).take 16)
        (pkcs7pad (List.replicate 16 49 ++ be32Bytes 1 ++ [255] ++ [97])))) [97]
      = some (.ok []) ∧
    (PrpCrypto.new (List.replicate 16 7)).aes_128_cbc_decrypt_data
      (toHex (mask (List.replicate 16 7) (List.replicate 16 3) (pkcs7pad [255])))
      (List.replicate 16 3) = .ok [] := by
  exact ⟨by decide, by decide⟩

/-! ## Data-path round trip -/

/-- Decryption inverts the masked, padded encryption for 16-byte key and IV. -/
theorem symm_decrypt_symm_mask (key iv data : List Nat)
    (hk : key.length = 16) (hiv : iv.length = 16) :
    symm_decrypt key iv (mask key iv (pkcs7pad data)) = .ok data := by
  unfold symm_decrypt
  rw [if_neg (by omega), if_neg (by omega)]
  have hml : (mask key iv (pkcs7pad data)).length = (pkcs7pad data).length :=
    mask_length _ _ _
  rw [if_neg (by
    rw [hml]
    have := pkcs7pad_length_mod data
    have := pkcs7pad_length_pos data
    omega)]
  rw [mask_mask, pkcs7unpad_pkcs7pad]

/-- C7: Data-path round trip: for every 16-byte key, every plaintext string
`P` and every 16-byte IV, `aes_128_cbc_encrypt_data` produces lowercase
hexadecimal text which `aes_128_cbc_decrypt_data` under the same IV decrypts
back to exactly `P`. -/
theorem C7_data_roundtrip (key iv P : List Nat)
    (hk : key.length = 16) (hiv : iv.length = 16)
    (hbP : ∀ b ∈ P, b < 256) (hutf : utf8Valid P = true) :
    (PrpCrypto.new key).aes_128_cbc_encrypt_data P iv
        = .ok (toHex (mask key iv (pkcs7pad P))) ∧
    (toHex (mask key iv (pkcs7pad P))).all isLowerHexDigit = true ∧
    (PrpCrypto.new key).aes_128_cbc_decrypt_data (toHex (mask key iv (pkcs7pad P))) iv
        = .ok P := by
  have hkey : (PrpCrypto.new key).key = key := rfl
  have hmb : ∀ b ∈ mask key iv (pkcs7pad P), b < 256 := mask_lt _ _ _ (pkcs7pad_lt _ hbP)
  have henc : symm_encrypt key iv P = .ok (mask key iv (pkcs7pad P)) := by
    unfold symm_encrypt
    rw [if_neg (by omega), if_neg (by omega)]
  refine ⟨?_, ?_, ?_⟩
  · simp only [PrpCrypto.aes_128_cbc_encrypt_data, hkey, henc]
  · rw [List.all_eq_true]
    exact fun c hc => toHex_lower _ hmb c hc
  · simp only [PrpCrypto.aes_128_cbc_decrypt_data, hkey, fromHex_toHex _ hmb,
      symm_decrypt_symm_mask key iv P hk hiv, utf8OrEmpty_valid P hutf]

/-- Witness for C7: a 16-byte key, a 16-byte IV and plaintext `"hi"`. -/
theorem C7_data_roundtrip_witness :
    (PrpCrypto.new (List.replicate 16 7)).aes_128_cbc_encrypt_data [104, 105]
        (List.replicate 16 3)
      = .ok (toHex (mask (List.replicate 16 7) (List.replicate 16 3)
          (pkcs7pad [104, 105]))) ∧
    (toHex (mask (List.replicate 16 7) (List.replicate 16 3)
        (pkcs7pad [104, 105]))).all isLowerHexDigit = true ∧
    (PrpCrypto.new (List.replicate 16 7)).aes_128_cbc_decrypt_data
        (toHex (mask (List.replicate 16 7) (List.replicate 16 3) (pkcs7pad [104, 105])))
        (List.replicate 16 3)
      = .ok [104, 105] :=
  C7_data_roundtrip (List.replicate 16 7) (List.replicate 16 3) [104, 105]
    (by decide) (by decide) (by decide) (by decide)

/-! ## Signature verification error discipline -/

/-- Every error of `base64Decode` is an encoding error. -/
theorem base64Decode_error (s : List Nat) (e : LabraError)
    (h : base64Decode s = .error e) : e = .encodingError := by
  unfold base64Decode at h
  repeat' split at h
  all_goals first
    | (injection h with h; exact h.symm)
    | cases h

/-- Every error of `fromHex` is an encoding error. -/
theorem fromHex_error (s : List Nat) (e : LabraError)
    (h : fromHex s = .error e) : e = .encodingError := by
  unfold fromHex at h
  repeat' split at h
  all_goals first
    | (injection h with h; exact h.symm)
    | cases h

/-- C8: `rsa_sha256_verify` returns the boolean `false`, not an error, for a
well-formed public key and a structurally valid base64 signature that does
not verify against the content; and every typed error it can return is an
`EncodingError` (malformed base64/hex input) or a `KeyParseError` (malformed
key material). -/
theorem C8_verify_false_not_error (pk content s sig : List Nat)
    (hdec : base64Decode s = .ok sig) (hb : ∀ b ∈ sig, b < 256)
    (hpem : wellFormedPem pk = true)
    (hnv : rsaVerifyBytes pk content sig = false) :
    PrpCrypto.rsa_sha256_verify pk content s = .ok false ∧
    (∀ (pk' content' s' : List Nat) (e : LabraError),
      PrpCrypto.rsa_sha256_verify pk' content' s' = .error e →
        e = .encodingError ∨ e = .keyParseError) := by
  constructor
  · simp only [PrpCrypto.rsa_sha256_verify, hdec, fromHex_toHex _ hb, hpem, if_true, hnv]
  · intro pk' content' s' e he
    unfold PrpCrypto.rsa_sha256_verify at he
    cases h1 : base64Decode s' with
    | error e1 =>
        simp only [h1] at he
        injection he with he
        subst he
        exact Or.inl (base64Decode_error s' e1 h1)
    | ok sig1 =>
        simp only [h1] at he
        cases h2 : fromHex (toHex sig1) with
        | error e2 =>
            simp only [h2] at he
            injection he with he
            subst he
            exact Or.inl (fromHex_error _ e2 h2)
        | ok sig2 =>
            simp only [h2] at he
            by_cases hp : wellFormedPem pk' = true
            · rw [if_pos hp] at he
              cases he
            · rw [if_neg hp] at he
              injection he with he
              subst he
              exact Or.inr rfl

/-- Witness for C8: key material carrying the PEM marker, content `"c"` and
the valid base64 encoding of the three bytes `[1, 2, 3]`, which are not the
matching signature: the result is `Ok(false)`. -/
theorem C8_verify_false_not_error_witness :
    PrpCrypto.rsa_sha256_verify pemMarker [99] (base64Encode [1, 2, 3]) = .ok false :=
  (C8_verify_false_not_error pemMarker [99] (base64Encode [1, 2, 3]) [1, 2, 3]
    (by decide) (by decide) (by decide) (by decide)).1

/-! ## AEAD path -/

/-- C1: the specified AEAD round trip is not realizable through the code:
`aes_256_gcm_encrypt` returns only the ciphertext `Vec<u8>` — the 16-byte
tag that `symm::encrypt_aead` writes into the local `out_tag` buffer is
discarded, so the caller never obtains the pair `(c, t)`.  Decryption of
that ciphertext succeeds exactly on the discarded tag (returning the
plaintext, as the claim requires of the round trip) and fails
authentication on every other tag. -/
theorem C1_aead_encrypt_discards_tag (key ad nonce pt : List Nat)
    (hk : key.length = 32) (hn : nonce ≠ []) :
    (PrpCrypto.new key).aes_256_gcm_encrypt ad nonce pt = .ok (mask key nonce pt) ∧
    (PrpCrypto.new key).aes_256_gcm_decrypt ad nonce (mask key nonce pt)
        (gcmTag key nonce ad (mask key nonce pt)) = .ok pt ∧
    (∀ tag, tag ≠ gcmTag key nonce ad (mask key nonce pt) →
      (PrpCrypto.new key).aes_256_gcm_decrypt ad nonce (mask key nonce pt) tag
        = .error .authenticationFailure) := by
  have hkey : (PrpCrypto.new key).key = key := rfl
  have hnz : ¬ nonce.length = 0 := by
    intro h0
    exact hn (List.length_eq_zero.mp h0)
  refine ⟨?_, ?_, ?_⟩
  · unfold PrpCrypto.aes_256_gcm_encrypt encrypt_aead
    rw [hkey]
    rw [if_neg (by omega), if_neg hnz]
  · unfold PrpCrypto.aes_256_gcm_decrypt decrypt_aead
    rw [hkey]
    rw [if_neg (by omega), if_neg hnz, if_pos rfl, mask_mask]
  · intro tag htag
    unfold PrpCrypto.aes_256_gcm_decrypt decrypt_aead
    rw [hkey]
    rw [if_neg (by omega), if_neg hnz, if_neg htag]

/-- Witness for C1: a 32-byte key and 1-byte nonce; the encryption result is
the bare ciphertext, with no tag component. -/
theorem C1_aead_encrypt_discards_tag_witness :
    (PrpCrypto.new (List.replicate 32 5)).aes_256_gcm_encrypt [] [1] [9]
      = .ok (mask (List.replicate 32 5) [1] [9]) :=
  (C1_aead_encrypt_discards_tag (List.replicate 32 5) [] [1] [9]
    (by decide) (by decide)).1

/-! ## Article replies -/

/-- C10: `add_article` appends the article and returns `true` when the reply
holds fewer than ten articles, returns `false` leaving the reply unchanged
at ten or more, and every reply built through `new`, `with_articles` with
fewer than ten articles and `add_article` renders an `ArticleCount` of at
most ten. -/
theorem C10_add_article_bound :
    (∀ (r : ArticlesReply) (a : Article), r.articles.length < 10 →
      r.add_article a = (true, { r with articles := r.articles ++ [a] })) ∧
    (∀ (r : ArticlesReply) (a : Article), 10 ≤ r.articles.length →
      r.add_article a = (false, r)) ∧
    (∀ r : ArticlesReply, BuiltReply r → r.articleCount ≤ 10) := by
  refine ⟨?_, ?_, ?_⟩
  · intro r a h
    unfold ArticlesReply.add_article
    rw [if_neg (by omega)]
  · intro r a h
    unfold ArticlesReply.add_article
    rw [if_pos h]
  · intro r hr
    induction hr with
    | new s t now =>
        show (List.length ([] : List Article)) ≤ 10
        simp
    | withArticles s t now arts h =>
        show arts.length ≤ 10
        omega
    | add r a hr ih =>
        unfold ArticlesReply.articleCount at ih ⊢
        by_cases h : 10 ≤ r.articles.length
        · unfold ArticlesReply.add_article
          rw [if_pos h]
          exact ih
        · unfold ArticlesReply.add_article
          rw [if_neg h]
          show (r.articles ++ [a]).length ≤ 10
          simp only [List.length_append, List.length_cons, List.length_nil]
          omega

/-- Witness for C10: adding to a fresh reply appends and returns `true`. -/
theorem C10_add_article_bound_witness :
    (ArticlesReply.new "s" "t" 0).add_article (Article.new "a" "b")
      = (true, { ArticlesReply.new "s" "t" 0 with
          articles := (ArticlesReply.new "s" "t" 0).articles ++ [Article.new "a" "b"] }) :=
  C10_add_article_bound.1 (ArticlesReply.new "s" "t" 0) (Article.new "a" "b") (by decide)
